import Mathlib

/-
Verification of the looker-custom-viz table visualization:
a shallow embedding of the value-normalization layer (`tableUtils.ts`),
the table-state adapter (`useTableLogic`) and the visualization
controller (`handleDataUpdate` / `transformQueryData`).

JavaScript runtime values that can appear in a Looker query-response row
are modelled by the inductive type `JsVal` (JSON-like data: primitives,
`null`, `undefined`, objects as association lists, arrays).  All embedded
functions are total Lean functions; a JavaScript operation that can throw
a TypeError is embedded as an `Except`-valued function, so "the code never
throws on these inputs" is expressed by an embedding that returns a plain
value rather than an `Except`.
-/

set_option autoImplicit false

namespace LookerViz

/-- A JavaScript value as it appears in Looker query-response data:
primitives, `null`, `undefined`, plain objects (association lists of
string keys, in property-insertion order) and arrays. -/
inductive JsVal where
  | undefV
  | null
  | boolV (b : Bool)
  | numV (n : Int)
  | strV (s : String)
  | obj (fields : List (String × JsVal))
  | arr (elems : List JsVal)
  deriving Repr

/-- A JavaScript object regarded as a row: an association list from
property names to values, in property-insertion order.  JavaScript
objects have pairwise-distinct keys; lemmas that depend on this carry a
`Nodup` hypothesis. -/
abbrev JsObj := List (String × JsVal)

/-- JavaScript truthiness: `undefined`, `null`, `false`, `0` and `""` are
falsy, everything else (including every object and array) is truthy. -/
def JsVal.truthy : JsVal → Bool
  | .undefV => false
  | .null => false
  | .boolV b => b
  | .numV n => n != 0
  | .strV s => s != ""
  | .obj _ => true
  | .arr _ => true

/-- `v === null || v === undefined`. -/
def JsVal.isNullish : JsVal → Bool
  | .undefV => true
  | .null => true
  | _ => false

/-- `typeof v === 'object'` (true for objects, arrays and `null`). -/
def JsVal.isObjType : JsVal → Bool
  | .null => true
  | .obj _ => true
  | .arr _ => true
  | _ => false

/-- Reads a run of decimal digits as a natural number, `none` on any
non-digit character. -/
def digitsToNatAux : List Char → Nat → Option Nat
  | [], acc => some acc
  | c :: rest, acc =>
    if c.isDigit then digitsToNatAux rest (acc * 10 + (c.toNat - 48)) else none

/-- Parses a nonempty all-digit string. -/
def digitsToNat? (cs : List Char) : Option Nat :=
  match cs with
  | [] => none
  | _ => digitsToNatAux cs 0

/-- Canonical array index lookup: `xs[k]` for a numeric string key `k`,
as JavaScript resolves string property names on arrays. -/
def arrIdx (xs : List JsVal) (k : String) : Option JsVal :=
  match digitsToNat? k.toList with
  | some i => if toString i = k then xs.get? i else none
  | none => none

/-- Property lookup `v[k]`, returning `none` when the property is absent.
Objects use first-match association-list lookup (JavaScript objects have
unique keys); arrays expose `length` and their canonical indices;
property access on primitives yields `undefined` (`none` here). -/
def JsVal.getProp? : JsVal → String → Option JsVal
  | .obj fs, k => fs.lookup k
  | .arr xs, k => if k = "length" then some (.numV xs.length) else arrIdx xs k
  | _, _ => none

/-- `k in v` (the embedded code only applies it to objects). -/
def JsVal.hasKey (v : JsVal) (k : String) : Bool :=
  (v.getProp? k).isSome

/-- `v[k]`, with JavaScript's `undefined` for an absent property. -/
def JsVal.getKey (v : JsVal) (k : String) : JsVal :=
  (v.getProp? k).getD .undefV

/-- JavaScript `a || b`. -/
def jsOr (a b : JsVal) : JsVal :=
  if a.truthy then a else b

/-- The guard `value && typeof value === 'object' && 'value' in value`
used throughout the source to recognize Looker wrapper objects. -/
def isWrapperPat (v : JsVal) : Bool :=
  v.truthy && v.isObjType && v.hasKey "value"

/-- True for every non-object value (JavaScript primitives, `null` and
`undefined`); false for objects and arrays. -/
def isPrimitiveOrNull : JsVal → Bool
  | .obj _ => false
  | .arr _ => false
  | _ => true

/-- JavaScript property assignment `o[k] = v`: updates the value in place
when the key is present, otherwise appends the property. -/
def objSet (fs : JsObj) (k : String) (v : JsVal) : JsObj :=
  if (fs.lookup k).isSome then
    fs.map (fun kv => if kv.1 = k then (k, v) else kv)
  else
    fs ++ [(k, v)]

/-! ### Field label formatting (`formatFieldLabel`, tableUtils.ts lines 2-10) -/

/-- Splitting a character list at every occurrence of a single separator
character, keeping empty pieces, exactly as JavaScript
`String.prototype.split` with a one-character separator does
(`"".split` gives `[""]`, separators at the ends give empty pieces). -/
def charSplit (p : Char → Bool) : List Char → List (List Char)
  | [] => [[]]
  | c :: rest =>
    if p c then [] :: charSplit p rest
    else
      match charSplit p rest with
      | [] => [[c]]
      | w :: ws => (c :: w) :: ws

/-- A separator character of the regex `[_\s]`: underscore or whitespace. -/
def isSepChar (c : Char) : Bool :=
  c = '_' || c.isWhitespace

/-- JavaScript `displayName.split(/[_\s]+/)`: splits at maximal runs of
underscores/whitespace, keeping the empty pieces that arise at the ends
(`"_a".split(/[_\s]+/)` is `["", "a"]`). -/
def splitSepRuns : List Char → List (List Char)
  | [] => [[]]
  | c :: rest =>
    if isSepChar c then
      match rest with
      | r :: _ => if isSepChar r then splitSepRuns rest else [] :: splitSepRuns rest
      | [] => [[], []]
    else
      match splitSepRuns rest with
      | [] => [[c]]
      | w :: ws => (c :: w) :: ws

/-- Collapses each maximal run of separator characters to a single
underscore (used by the specification-side formulation of the word
splitter). -/
def collapseRuns : List Char → List Char
  | [] => []
  | c :: rest =>
    if isSepChar c then
      match rest with
      | r :: _ => if isSepChar r then collapseRuns rest else '_' :: collapseRuns rest
      | [] => ['_']
    else c :: collapseRuns rest

/-- `word.charAt(0).toUpperCase() + word.slice(1).toLowerCase()`. -/
def titleWord : List Char → String
  | [] => ""
  | c :: rest => String.mk (c.toUpper :: rest.map Char.toLower)

/-- JavaScript `fieldName.split('.')`. -/
def jsSplitDot (s : String) : List String :=
  (charSplit (fun c => c = '.') s.toList).map (fun w => String.mk w)

/-- `formatFieldLabel` (tableUtils.ts): take the last dot-delimited
segment, split it at runs of underscores/whitespace, title-case each
word and join with single spaces. -/
def formatFieldLabel (fieldName : String) : String :=
  String.intercalate " "
    ((splitSepRuns ((jsSplitDot fieldName).getLastD "").toList).map titleWord)

/-- The specification's formulation of `formatFieldLabel`: written with
an independently-phrased word splitter (collapse each separator run to
one underscore, then split at underscores). -/
def formatFieldLabelSpec (fieldName : String) : String :=
  String.intercalate " "
    ((charSplit (fun c => c = '_')
        (collapseRuns ((jsSplitDot fieldName).getLastD "").toList)).map titleWord)

/-! ### Field value access (`getFieldValue`, tableUtils.ts lines 13-51) -/

/-- Unwraps a Looker wrapper object to its `value` property, the
`if (value && typeof value === 'object' && 'value' in value)` step of
`getFieldValue`. -/
def unwrapValue (v : JsVal) : JsVal :=
  if isWrapperPat v then v.getKey "value" else v

/-- The nested-access loop of `getFieldValue`: walk the dot-separated
segments, returning `undefined` as soon as the current value is nullish
or not an object, and unwrapping wrapper objects at every level. -/
def getFieldNested : List String → JsVal → JsVal
  | [], value => value
  | part :: rest, value =>
    if value.isNullish || !value.isObjType then .undefV
    else getFieldNested rest (unwrapValue (value.getKey part))

/-- `getFieldValue` (tableUtils.ts): direct property access first
(unwrapping a wrapper object), otherwise dotted-path traversal.  The
embedding is a total function: on the object rows the claims quantify
over, the source never throws (`fieldName in obj` requires an object
receiver, which `JsVal.obj` guarantees). -/
def getFieldValue (row : JsVal) (fieldName : String) : JsVal :=
  if row.hasKey fieldName then unwrapValue (row.getKey fieldName)
  else getFieldNested (jsSplitDot fieldName) row

/-- The specification's notion of a dotted path failing to resolve: at
some step the current value is nullish or not an object, or the object
is missing the next segment (wrappers being unwrapped at every level). -/
def pathBroken : List String → JsVal → Bool
  | [], _ => false
  | part :: rest, value =>
    if value.isNullish || !value.isObjType then true
    else if !value.hasKey part then true
    else pathBroken rest (unwrapValue (value.getKey part))

/-! ### Row transformation (`transformLookerData`, tableUtils.ts
lines 75-122) -/

/-- The body of the per-field `try` block in `transformLookerData`:
nullish becomes `null`, a wrapper object yields its `value` property,
anything else passes through.  `Except`-valued so that the surrounding
`catch` can be modelled; on `JsVal` inputs the body itself never
fails. -/
def transformLookerFieldBody (value : JsVal) : Except Unit JsVal :=
  if value.isNullish then .ok .null
  else if value.isObjType && value.hasKey "value" then .ok (value.getKey "value")
  else .ok value

/-- The `catch` around one field of `transformLookerData`: any failure
of the body degrades that field to `null`. -/
def catchToNull (body : JsVal → Except Unit JsVal) (value : JsVal) : JsVal :=
  match body value with
  | .ok w => w
  | .error _ => .null

/-- One field of `transformLookerData`, `catch` included. -/
def transformLookerField : JsVal → JsVal :=
  catchToNull transformLookerFieldBody

/-- One row of `transformLookerData`, generic in the guarded per-field
body: `Object.entries(row)` is walked in order and each transformed
field is assigned onto a fresh object.  The body is a parameter so that
the containment provided by the per-field `catch` can be stated for an
arbitrary failing body. -/
def transformLookerRowWith (body : JsVal → Except Unit JsVal) (row : JsObj) : JsObj :=
  row.foldl (fun acc kv => objSet acc kv.1 (catchToNull body kv.2)) []

/-- One row of `transformLookerData` with the real per-field body. -/
def transformLookerRow : JsObj → JsObj :=
  transformLookerRowWith transformLookerFieldBody

/-- `transformLookerData` (tableUtils.ts): maps the row transformation
over the batch. -/
def transformLookerData (rows : List JsObj) : List JsObj :=
  rows.map transformLookerRow

/-! ### Controller row transformation (`transformQueryData`, part_003
lines 103-126) -/

/-- One `Object.entries` step of `transformQueryData`: a wrapper object
is written back as its `value` together with a `<key>_rendered`
companion holding `value.rendered || value.value`; anything else is
copied unchanged.  There is no per-field `try`/`catch` here. -/
def transformQueryEntry (acc : JsObj) (kv : String × JsVal) : JsObj :=
  if isWrapperPat kv.2 then
    objSet (objSet acc kv.1 (kv.2.getKey "value"))
      (kv.1 ++ "_rendered") (jsOr (kv.2.getKey "rendered") (kv.2.getKey "value"))
  else objSet acc kv.1 kv.2

/-- One row of the controller's `transformQueryData`. -/
def transformQueryRow (row : JsObj) : JsObj :=
  row.foldl transformQueryEntry []

/-- `Object.entries(v)`: property list of an object, indexed entries of
an array, the empty list for primitives, and a TypeError (error) for
`null`/`undefined`. -/
def entriesOf : JsVal → Except Unit JsObj
  | .obj fs => .ok fs
  | .arr xs => .ok (xs.enum.map (fun p => (toString p.1, p.2)))
  | .null => .error ()
  | .undefV => .error ()
  | _ => .ok []

/-- One element of `rawData.map(row => ...)` in `transformQueryData`; a
nullish element makes `Object.entries` throw. -/
def transformQueryRowE (row : JsVal) : Except Unit JsObj :=
  match entriesOf row with
  | .ok fs => .ok (transformQueryRow fs)
  | .error e => .error e

/-- JavaScript `rawData.length === 0` for the early-exit guard of
`transformQueryData` (on a non-array the property is `undefined` and the
strict comparison is false unless an object carries `length: 0`). -/
def lenZero : JsVal → Bool
  | .arr xs => xs.isEmpty
  | .strV s => s.isEmpty
  | .obj fs =>
    match fs.lookup "length" with
    | some (.numV n) => n == 0
    | _ => false
  | _ => false

/-- `transformQueryData` (part_003): returns `[]` when `rawData` is
falsy or has `length === 0`, otherwise maps the row transformation;
calling `.map` on a remaining non-array value throws. -/
def transformQueryDataE (rawData : JsVal) : Except Unit (List JsObj) :=
  if !rawData.truthy || lenZero rawData then .ok []
  else
    match rawData with
    | .arr xs => xs.mapM transformQueryRowE
    | _ => .error ()

/-! ### Cell rendering (the `cell` option in `createColumns`, part_002
lines 224-244) -/

/-- Minimal JSON string escaping (backslash, quote and the common
control characters; other characters are emitted as themselves). -/
def jsonEscapeChar (c : Char) : String :=
  if c = '\\' then "\\\\"
  else if c = '\"' then "\\\""
  else if c = '\n' then "\\n"
  else if c = '\t' then "\\t"
  else if c = '\r' then "\\r"
  else String.mk [c]

/-- A JSON string literal. -/
def jsonQuote (s : String) : String :=
  "\"" ++ String.join (s.toList.map jsonEscapeChar) ++ "\""

mutual

/-- `JSON.stringify` on the JSON-like fragment of `JsVal` (numbers are
integers in this embedding; a top-level `undefined` — unreachable from
the cell renderer — stringifies to the empty string). -/
def jsonStringify : JsVal → String
  | .undefV => ""
  | .null => "null"
  | .boolV b => cond b "true" "false"
  | .numV n => toString n
  | .strV s => jsonQuote s
  | .arr xs => "[" ++ String.intercalate "," (jsonItems xs) ++ "]"
  | .obj fs => "\x7b" ++ String.intercalate "," (jsonFields fs) ++ "\x7d"

/-- Array elements: `undefined` becomes `null`. -/
def jsonItems : List JsVal → List String
  | [] => []
  | .undefV :: rest => "null" :: jsonItems rest
  | v :: rest => jsonStringify v :: jsonItems rest

/-- Object properties: `undefined`-valued properties are omitted. -/
def jsonFields : List (String × JsVal) → List String
  | [] => []
  | (_, .undefV) :: rest => jsonFields rest
  | (k, v) :: rest => (jsonQuote k ++ ":" ++ jsonStringify v) :: jsonFields rest

end

/-- Comma-grouping of a reversed digit list, three digits at a time. -/
def groupRev : List Char → List Char
  | a :: b :: c :: d :: rest => a :: b :: c :: ',' :: groupRev (d :: rest)
  | l => l

/-- `Number.prototype.toLocaleString()` for integers under the default
`en-US` grouping: thousands separated by commas. -/
def toLocaleString (n : Int) : String :=
  let g := String.mk (groupRev (toString n.natAbs).toList.reverse).reverse
  if n < 0 then "-" ++ g else g

/-- The column `cell` renderer from `createColumns` (part_002): nullish
values display as `-`; an object with a `value` key displays
`value.rendered || value.value || '-'`; any other object is
`JSON.stringify`ed; numbers are locale-formatted; everything else is
returned unchanged.  (The source's `typeof value === 'object' &&
value !== null` guard is the `isObjType` test here because nullish
values were already handled.) -/
def cellRender (value : JsVal) : JsVal :=
  if value.isNullish then .strV "-"
  else if value.isObjType then
    if value.hasKey "value" then
      jsOr (value.getKey "rendered") (jsOr (value.getKey "value") (.strV "-"))
    else .strV (jsonStringify value)
  else
    match value with
    | .numV n => .strV (toLocaleString n)
    | v => v

/-- The cell-rendering policy exactly as the specification words it:
for a wrapper object, the `rendered` field "if present", else the
`value` field, else the placeholder — presence of the key, not
truthiness of the value. -/
def cellRenderSpecLiteral : JsVal → JsVal
  | .undefV => .strV "-"
  | .null => .strV "-"
  | .obj fs =>
    if (fs.lookup "value").isSome then
      if (fs.lookup "rendered").isSome then (fs.lookup "rendered").getD .undefV
      else (fs.lookup "value").getD .undefV
    else .strV (jsonStringify (.obj fs))
  | .arr xs => .strV (jsonStringify (.arr xs))
  | .numV n => .strV (toLocaleString n)
  | v => v

/-- The cell-rendering policy with the minimal amendment that matches
the code: the `rendered` field if truthy, else the `value` field if
truthy, else the placeholder. -/
def cellRenderSpecAmended : JsVal → JsVal
  | .undefV => .strV "-"
  | .null => .strV "-"
  | .obj fs =>
    if (fs.lookup "value").isSome then
      let r := ((fs.lookup "rendered").getD .undefV)
      let w := ((fs.lookup "value").getD .undefV)
      if r.truthy then r else if w.truthy then w else .strV "-"
    else .strV (jsonStringify (.obj fs))
  | .arr xs => .strV (jsonStringify (.arr xs))
  | .numV n => .strV (toLocaleString n)
  | v => v

/-! ### Column creation (`createColumns` in `useTableLogic`, part_002)
and the controller's `handleDataUpdate` (part_003 lines 162-222) -/

/-- The `columnResizeMode` enum. -/
inductive ColumnResizeMode where
  | onChange
  | onEnd
  deriving Repr, DecidableEq

/-- `TableFeatureConfig` (part_002): every field optional, as in the
`Partial` TypeScript type. -/
structure TableFeatureConfig where
  enableColumnResizing : Option Bool := none
  enableRowSelection : Option Bool := none
  enableColumnFilters : Option Bool := none
  enablePinning : Option Bool := none
  enableGrouping : Option Bool := none
  columnResizeMode : Option ColumnResizeMode := none
  rowsPerPage : Option Int := none
  deriving Repr

/-- `config?.flag ?? false`. -/
def optFlag (cfg : Option TableFeatureConfig) (f : TableFeatureConfig → Option Bool) : Bool :=
  (cfg.bind f).getD false

/-- Field metadata as consumed by `createColumns`: a name and an
optional label, where `none` stands for an absent or falsy label (the
source reads it with `field.label || formatFieldLabel(field.name)`). -/
structure FieldMeta where
  name : String
  label : Option String
  deriving Repr, DecidableEq

/-- The `type` tag attached to each entry of `allFields`. -/
inductive FieldType where
  | dimension
  | measure
  | calculation
  deriving Repr, DecidableEq

/-- One entry of the `allFields` array built in `createColumns`. -/
structure AllField where
  name : String
  label : String
  ftype : FieldType
  deriving Repr, DecidableEq

/-- `field.label || formatFieldLabel(field.name)`. -/
def fieldLabelOf (m : FieldMeta) : String :=
  match m.label with
  | some l => l
  | none => formatFieldLabel m.name

/-- The `allFields` array of `createColumns`: dimensions, then measures,
then table calculations, each carrying an explicit or derived label. -/
def mkAllFields (dims meas calcs : List FieldMeta) : List AllField :=
  dims.map (fun m => ⟨m.name, fieldLabelOf m, .dimension⟩)
    ++ meas.map (fun m => ⟨m.name, fieldLabelOf m, .measure⟩)
    ++ calcs.map (fun m => ⟨m.name, fieldLabelOf m, .calculation⟩)

/-- A column definition as assembled by `createColumns`: identifier,
header label and the per-column capability flags copied from the feature
configuration at build time (sorting is always enabled). -/
structure ColumnDef where
  id : String
  header : String
  enableSorting : Bool
  enableColumnFilter : Bool
  enablePinning : Bool
  enableGrouping : Bool
  enableResizing : Bool
  deriving Repr, DecidableEq

/-- One column of `createColumns` for a given feature configuration. -/
def mkColumn (cfg : Option TableFeatureConfig) (f : AllField) : ColumnDef :=
  { id := f.name
    header := f.label
    enableSorting := true
    enableColumnFilter := optFlag cfg TableFeatureConfig.enableColumnFilters
    enablePinning := optFlag cfg TableFeatureConfig.enablePinning
    enableGrouping := optFlag cfg TableFeatureConfig.enableGrouping
    enableResizing := optFlag cfg TableFeatureConfig.enableColumnResizing }

/-- `createColumns` (part_002): builds one column per entry of
`allFields`. -/
def createColumns (cfg : Option TableFeatureConfig)
    (dims meas calcs : List FieldMeta) : List ColumnDef :=
  (mkAllFields dims meas calcs).map (mkColumn cfg)

/-- `queryResponse?._queryResponse?.data || queryResponse?.data || []`:
the data-source resolution of `handleDataUpdate`.  `optGet` is the
optional-chaining access `v?.k`. -/
def optGet (v : JsVal) (k : String) : JsVal :=
  if v.isNullish then .undefV else v.getKey k

/-- The resolved raw data of `handleDataUpdate`. -/
def resolveRawData (qr : JsVal) : JsVal :=
  jsOr (optGet (optGet qr "_queryResponse") "data") (jsOr (optGet qr "data") (.arr []))

/-- Parses one `fieldTableCalculations` entry into field metadata: the
`name` must be a string (a missing name would make
`formatFieldLabel(calc.name)` throw); a truthy string label is kept,
anything else falls back to the derived label. -/
def parseFieldMeta (v : JsVal) : Except Unit FieldMeta :=
  match v.getProp? "name" with
  | some (.strV n) =>
    match v.getProp? "label" with
    | some (.strV l) => .ok ⟨n, if l = "" then none else some l⟩
    | _ => .ok ⟨n, none⟩
  | _ => .error ()

/-- The `fieldTableCalculations` value handed to `createColumns`: an
array is mapped entrywise, a falsy value is skipped (no calculation
columns), and `.map` on a truthy non-array throws. -/
def extractCalcsVal : JsVal → Except Unit (List FieldMeta)
  | .arr xs => xs.mapM parseFieldMeta
  | v => if v.truthy then .error () else .ok []

/-- The table calculations of a query response, as read by the merged
object `{...queryResponse, ...fields, data}` in `handleDataUpdate`
(the hard-coded `fields` replace `fieldDimensions` and `fieldMeasures`
but carry no `fieldTableCalculations` key, so the response's own value
survives the spread). -/
def extractCalcs (qr : JsVal) : Except Unit (List FieldMeta) :=
  extractCalcsVal (qr.getKey "fieldTableCalculations")

/-- The hard-coded dimension descriptor of `handleDataUpdate`. -/
def hardcodedDimensions : List FieldMeta :=
  [⟨"executive_summary.dynamic_reporting", some "Reporting Date"⟩]

/-- The hard-coded measure descriptor of `handleDataUpdate`. -/
def hardcodedMeasures : List FieldMeta :=
  [⟨"executive_summary.total_order_count_dynamic", some "Total Order Count"⟩]

/-- The observable outcome of one `handleDataUpdate` call: the
"No data available" error state, a successful table update (data and
columns), or the "Failed to process visualization data" error state. -/
inductive UpdateOutcome where
  | noData
  | success (rows : List JsObj) (cols : List ColumnDef)
  | failed
  deriving Repr

/-- The `try` block of `handleDataUpdate`: resolve the raw data,
transform it, surface `noData` on an empty result, otherwise build the
columns from the hard-coded dimension/measure pair plus the response's
table calculations. -/
def handleDataUpdateBody (cfg : Option TableFeatureConfig) (qr : JsVal) :
    Except Unit UpdateOutcome :=
  match transformQueryDataE (resolveRawData qr) with
  | .error e => .error e
  | .ok transformed =>
    if transformed.length = 0 then .ok .noData
    else
      match extractCalcs qr with
      | .error e => .error e
      | .ok calcs =>
        .ok (.success transformed
          (createColumns cfg hardcodedDimensions hardcodedMeasures calcs))

/-- `handleDataUpdate` (part_003): the `try` body with its `catch` —
any exception becomes the `failed` outcome, so the handler is a total
function and nothing propagates to the host. -/
def handleDataUpdate (cfg : Option TableFeatureConfig) (qr : JsVal) : UpdateOutcome :=
  match handleDataUpdateBody cfg qr with
  | .ok o => o
  | .error _ => .failed

/-! ### The table state adapter's pagination reset (`useTableLogic`,
part_002 lines 338-345) -/

/-- The state owned by `useTableLogic` that the pagination-reset effect
observes.  React compares the `data` and `columns` dependencies by
reference; `dataRef`/`columnsRef` model reference identity: each call
of the corresponding setter produces a fresh array, so it bumps the
counter. -/
structure TableLogicState where
  dataRef : Nat
  data : List JsObj
  columnsRef : Nat
  columns : List ColumnDef
  pageIndex : Nat
  pageSize : Int
  deriving Repr

/-- State-changing events on the adapter. -/
inductive TableEvent where
  | setData (rows : List JsObj)
  | setColumns (cols : List ColumnDef)
  | setPageIndex (i : Nat)
  | setPageSize (n : Int)
  deriving Repr

/-- The direct effect of one setter call. -/
def applyEvent : TableLogicState → TableEvent → TableLogicState
  | s, .setData rows => { s with data := rows, dataRef := s.dataRef + 1 }
  | s, .setColumns cols => { s with columns := cols, columnsRef := s.columnsRef + 1 }
  | s, .setPageIndex i => { s with pageIndex := i }
  | s, .setPageSize n => { s with pageSize := n }

/-- The `useEffect(() => setPageIndex(0), [data, columns])` of
`useTableLogic`: after a render in which the `data` or `columns`
reference changed, the page index is reset to zero. -/
def paginationResetEffect (prev next : TableLogicState) : TableLogicState :=
  if (next.dataRef != prev.dataRef) || (next.columnsRef != prev.columnsRef) then
    { next with pageIndex := 0 }
  else next

/-- One step of the adapter: a setter call followed by React running
the effects whose dependencies changed. -/
def tableStep (s : TableLogicState) (e : TableEvent) : TableLogicState :=
  paginationResetEffect s (applyEvent s e)

/-! ### Helper lemmas -/

theorem lookup_none_of_not_mem (l : JsObj) (k : String)
    (h : k ∉ l.map Prod.fst) : l.lookup k = none := by
  induction l with
  | nil => rfl
  | cons kv rest ih =>
    simp only [List.map_cons, List.mem_cons, not_or] at h
    have hne : (k == kv.1) = false := by
      simp [beq_iff_eq]
      exact h.1
    simp [List.lookup, hne, ih h.2]

theorem objSet_fresh (acc : JsObj) (k : String) (v : JsVal)
    (h : k ∉ acc.map Prod.fst) : objSet acc k v = acc ++ [(k, v)] := by
  simp [objSet, lookup_none_of_not_mem acc k h]

theorem objSet_mem (acc : JsObj) (k : String) (v : JsVal) (kv : String × JsVal)
    (h : kv ∈ objSet acc k v) : kv ∈ acc ∨ kv = (k, v) := by
  unfold objSet at h
  by_cases hs : (acc.lookup k).isSome
  · simp only [hs, if_true] at h
    obtain ⟨orig, ho, heq⟩ := List.mem_map.mp h
    by_cases he : orig.1 = k
    · right
      simpa [he] using heq.symm
    · left
      have hkv : kv = orig := by simpa [he] using heq.symm
      rw [hkv]; exact ho
  · simp only [hs, if_false] at h
    rcases List.mem_append.mp h with h1 | h2
    · exact Or.inl h1
    · exact Or.inr (List.mem_singleton.mp h2)

theorem foldl_objSet_append (f : String × JsVal → JsVal) :
    ∀ (row acc : JsObj),
      (∀ k ∈ row.map Prod.fst, k ∉ acc.map Prod.fst) →
      (row.map Prod.fst).Nodup →
      row.foldl (fun a kv => objSet a kv.1 (f kv)) acc
        = acc ++ row.map (fun kv => (kv.1, f kv)) := by
  intro row
  induction row with
  | nil => intro acc _ _; simp
  | cons kv rest ih =>
    intro acc hfresh hnd
    have hk : kv.1 ∉ acc.map Prod.fst := hfresh kv.1 (by simp)
    have hstep : objSet acc kv.1 (f kv) = acc ++ [(kv.1, f kv)] := objSet_fresh acc kv.1 (f kv) hk
    simp only [List.map_cons, List.nodup_cons] at hnd
    have hfresh' : ∀ k ∈ rest.map Prod.fst, k ∉ (acc ++ [(kv.1, f kv)]).map Prod.fst := by
      intro k hkmem
      simp only [List.map_append, List.mem_append, List.map_cons, List.map_nil,
        List.mem_singleton, not_or]
      constructor
      · exact hfresh k (by simp [hkmem])
      · intro he
        exact hnd.1 (he ▸ hkmem)
    calc (kv :: rest).foldl (fun a p => objSet a p.1 (f p)) acc
        = rest.foldl (fun a p => objSet a p.1 (f p)) (objSet acc kv.1 (f kv)) := by
          simp [List.foldl_cons]
      _ = (acc ++ [(kv.1, f kv)]) ++ rest.map (fun p => (p.1, f p)) := by
          rw [hstep]; exact ih _ hfresh' hnd.2
      _ = acc ++ (kv :: rest).map (fun p => (p.1, f p)) := by simp

theorem foldl_objSet_mem (f : String × JsVal → JsVal) :
    ∀ (row acc : JsObj) (kv : String × JsVal),
      kv ∈ row.foldl (fun a p => objSet a p.1 (f p)) acc →
      kv ∈ acc ∨ ∃ p ∈ row, kv.2 = f p := by
  intro row
  induction row with
  | nil => intro acc kv h; exact Or.inl h
  | cons q rest ih =>
    intro acc kv h
    simp only [List.foldl_cons] at h
    rcases ih (objSet acc q.1 (f q)) kv h with h1 | h2
    · rcases objSet_mem acc q.1 (f q) kv h1 with ha | hb
      · exact Or.inl ha
      · exact Or.inr ⟨q, by simp, by rw [hb]⟩
    · obtain ⟨p, hp, he⟩ := h2
      exact Or.inr ⟨p, by simp [hp], he⟩

theorem transformLookerRowWith_eq_map (body : JsVal → Except Unit JsVal) (row : JsObj)
    (hnd : (row.map Prod.fst).Nodup) :
    transformLookerRowWith body row = row.map (fun kv => (kv.1, catchToNull body kv.2)) := by
  have h := foldl_objSet_append (fun kv => catchToNull body kv.2) row [] (by simp) hnd
  simpa [transformLookerRowWith] using h

theorem getFieldNested_undef : ∀ parts : List String, getFieldNested parts .undefV = .undefV := by
  intro parts
  cases parts with
  | nil => rfl
  | cons p rest => simp [getFieldNested, JsVal.isNullish]

theorem getFieldNested_of_pathBroken :
    ∀ (parts : List String) (v : JsVal), pathBroken parts v = true →
      getFieldNested parts v = .undefV := by
  intro parts
  induction parts with
  | nil => intro v h; simp [pathBroken] at h
  | cons p rest ih =>
    intro v h
    by_cases hstop : (v.isNullish || !v.isObjType) = true
    · simp [getFieldNested, hstop]
    · simp only [pathBroken, hstop, if_false] at h
      simp only [getFieldNested, hstop, if_false]
      by_cases hkey : v.hasKey p = true
      · simp only [hkey, Bool.not_true, if_false] at h
        exact ih _ h
      · have hnone : v.getProp? p = none := by
          simpa [JsVal.hasKey] using hkey
        have : unwrapValue (v.getKey p) = .undefV := by
          simp [JsVal.getKey, hnone, unwrapValue, isWrapperPat, JsVal.truthy]
        rw [this]
        exact getFieldNested_undef rest

theorem charSplit_cons (p : Char → Bool) (c : Char) (rest : List Char) :
    charSplit p (c :: rest)
      = if p c then [] :: charSplit p rest
        else
          match charSplit p rest with
          | [] => [[c]]
          | w :: ws => (c :: w) :: ws := rfl

theorem splitSepRuns_cons (c : Char) (rest : List Char) :
    splitSepRuns (c :: rest)
      = if isSepChar c then
          match rest with
          | r :: _ => if isSepChar r then splitSepRuns rest else [] :: splitSepRuns rest
          | [] => [[], []]
        else
          match splitSepRuns rest with
          | [] => [[c]]
          | w :: ws => (c :: w) :: ws := rfl

theorem collapseRuns_cons (c : Char) (rest : List Char) :
    collapseRuns (c :: rest)
      = if isSepChar c then
          match rest with
          | r :: _ => if isSepChar r then collapseRuns rest else '_' :: collapseRuns rest
          | [] => ['_']
        else c :: collapseRuns rest := rfl

theorem charSplit_collapseRuns (cs : List Char) :
    charSplit (fun c => c = '_') (collapseRuns cs) = splitSepRuns cs := by
  induction cs with
  | nil => rfl
  | cons c rest ih =>
    rw [collapseRuns_cons, splitSepRuns_cons]
    by_cases hc : isSepChar c = true
    · rw [if_pos hc, if_pos hc]
      cases rest with
      | nil =>
        rw [charSplit_cons]
        simp [charSplit]
      | cons r tail =>
        show charSplit (fun c => decide (c = '_'))
            (if isSepChar r = true then collapseRuns (r :: tail)
             else '_' :: collapseRuns (r :: tail))
          = (if isSepChar r = true then splitSepRuns (r :: tail)
             else [] :: splitSepRuns (r :: tail))
        by_cases hr : isSepChar r = true
        · rw [if_pos hr, if_pos hr]; exact ih
        · rw [if_neg hr, if_neg hr, charSplit_cons, if_pos (by simp), ih]
    · have hcu : ¬((fun c => decide (c = '_')) c = true) := by
        simp only [isSepChar, Bool.or_eq_true, not_or, Bool.not_eq_true] at hc
        simp only [decide_eq_true_eq]
        intro he
        rw [he] at hc
        simp at hc
      rw [if_neg hc, if_neg hc, charSplit_cons, if_neg hcu, ih]

/-- The properties one `transformQueryData` entry writes: a wrapper
produces its unwrapped value plus the `_rendered` companion, anything
else is copied. -/
def queryWrites (kv : String × JsVal) : JsObj :=
  if isWrapperPat kv.2 then
    [(kv.1, kv.2.getKey "value"),
     (kv.1 ++ "_rendered", jsOr (kv.2.getKey "rendered") (kv.2.getKey "value"))]
  else [(kv.1, kv.2)]

theorem append_rendered_ne (k : String) : k ++ "_rendered" ≠ k := by
  intro h
  have hl := congrArg String.length h
  rw [String.length_append] at hl
  have h9 : ("_rendered" : String).length = 9 := rfl
  omega

theorem append_rendered_inj {a b : String} (h : a ++ "_rendered" = b ++ "_rendered") :
    a = b := by
  apply String.ext
  have hd := congrArg String.data h
  rw [String.data_append, String.data_append] at hd
  exact List.append_cancel_right hd

theorem mem_queryWrites_keys (kv : String × JsVal) (k : String) :
    k ∈ (queryWrites kv).map Prod.fst
      ↔ k = kv.1 ∨ (isWrapperPat kv.2 = true ∧ k = kv.1 ++ "_rendered") := by
  unfold queryWrites
  by_cases hw : isWrapperPat kv.2 = true
  · simp [hw]
  · simp [hw]

theorem transformQueryEntry_fresh (acc : JsObj) (kv : String × JsVal)
    (h1 : kv.1 ∉ acc.map Prod.fst)
    (h2 : isWrapperPat kv.2 = true → kv.1 ++ "_rendered" ∉ acc.map Prod.fst) :
    transformQueryEntry acc kv = acc ++ queryWrites kv := by
  unfold transformQueryEntry queryWrites
  by_cases hw : isWrapperPat kv.2 = true
  · rw [if_pos hw, if_pos hw, objSet_fresh acc _ _ h1, objSet_fresh]
    · simp
    · rw [List.map_append]
      simp only [List.mem_append, List.map_cons, List.map_nil, List.mem_singleton, not_or]
      exact ⟨h2 hw, append_rendered_ne kv.1⟩
  · rw [if_neg hw, if_neg hw, objSet_fresh acc _ _ h1]

theorem foldl_transformQueryEntry :
    ∀ (row acc : JsObj),
      ((row.flatMap queryWrites).map Prod.fst).Nodup →
      (∀ k ∈ (row.flatMap queryWrites).map Prod.fst, k ∉ acc.map Prod.fst) →
      row.foldl transformQueryEntry acc = acc ++ row.flatMap queryWrites := by
  intro row
  induction row with
  | nil => intro acc _ _; simp
  | cons kv rest ih =>
    intro acc hnd hfresh
    rw [List.flatMap_cons, List.map_append] at hnd hfresh
    have hk1 : kv.1 ∈ (queryWrites kv).map Prod.fst :=
      (mem_queryWrites_keys kv kv.1).mpr (Or.inl rfl)
    have hstep : transformQueryEntry acc kv = acc ++ queryWrites kv := by
      apply transformQueryEntry_fresh
      · exact hfresh kv.1 (List.mem_append_left _ hk1)
      · intro hw
        exact hfresh (kv.1 ++ "_rendered")
          (List.mem_append_left _ ((mem_queryWrites_keys kv _).mpr (Or.inr ⟨hw, rfl⟩)))
    have hdisj := List.disjoint_of_nodup_append hnd
    have hrest := ih (acc ++ queryWrites kv) (List.Nodup.of_append_right hnd) ?_
    · rw [List.foldl_cons, hstep, hrest, List.flatMap_cons, List.append_assoc]
    · intro k hk
      rw [List.map_append]
      simp only [List.mem_append, not_or]
      exact ⟨hfresh k (List.mem_append_right _ hk), fun hmem => hdisj hmem hk⟩

theorem queryWriteKeys_nodup (row : JsObj)
    (h1 : (row.map Prod.fst).Nodup)
    (h2 : ∀ k ∈ row.map Prod.fst, ∀ k' ∈ row.map Prod.fst, k ≠ k' ++ "_rendered") :
    ((row.flatMap queryWrites).map Prod.fst).Nodup := by
  rw [List.map_flatMap, List.nodup_flatMap]
  constructor
  · intro kv _
    unfold queryWrites
    by_cases hw : isWrapperPat kv.2 = true
    · simp [hw, Ne.symm (append_rendered_ne kv.1)]
    · simp [hw]
  · have hp : row.Pairwise (fun a b => a.1 ≠ b.1) := by
      rw [List.Nodup, List.pairwise_map] at h1
      exact h1
    apply hp.imp_of_mem
    intro a b ha hb hne k hka hkb
    have ha1 : a.1 ∈ row.map Prod.fst := List.mem_map_of_mem Prod.fst ha
    have hb1 : b.1 ∈ row.map Prod.fst := List.mem_map_of_mem Prod.fst hb
    rcases (mem_queryWrites_keys a k).mp hka with hka1 | ⟨_, hka2⟩ <;>
      rcases (mem_queryWrites_keys b k).mp hkb with hkb1 | ⟨_, hkb2⟩
    · exact hne (hka1 ▸ hkb1)
    · exact h2 a.1 ha1 b.1 hb1 (hka1 ▸ hkb2)
    · exact h2 b.1 hb1 a.1 ha1 (hkb1 ▸ hka2)
    · exact hne (append_rendered_inj (hka2 ▸ hkb2))

theorem transformQueryRow_eq_flatMap (row : JsObj)
    (h1 : (row.map Prod.fst).Nodup)
    (h2 : ∀ k ∈ row.map Prod.fst, ∀ k' ∈ row.map Prod.fst, k ≠ k' ++ "_rendered") :
    transformQueryRow row = row.flatMap queryWrites := by
  have h := foldl_transformQueryEntry row [] (queryWriteKeys_nodup row h1 h2) (by simp)
  simpa [transformQueryRow] using h

theorem getProp?_arr_value (xs : List JsVal) :
    JsVal.getProp? (JsVal.arr xs) "value" = none := rfl

theorem getProp?_arr_rendered (xs : List JsVal) :
    JsVal.getProp? (JsVal.arr xs) "rendered" = none := rfl

/-! ### Small facts about the per-field transformation -/

theorem transformLookerField_of_primitive (v : JsVal)
    (h : isPrimitiveOrNull v = true) :
    isPrimitiveOrNull (transformLookerField v) = true := by
  cases v <;> simp_all [transformLookerField, catchToNull, transformLookerFieldBody,
    JsVal.isNullish, JsVal.isObjType, isPrimitiveOrNull]

theorem transformLookerField_wrapper (v : JsVal) (hw : isWrapperPat v = true) :
    transformLookerField v = v.getKey "value" := by
  have h3 : (v.truthy = true ∧ v.isObjType = true) ∧ v.hasKey "value" = true := by
    simpa [isWrapperPat, Bool.and_eq_true] using hw
  obtain ⟨⟨ht, ho⟩, hk⟩ := h3
  have hnn : v.isNullish = false := by
    cases v <;> simp_all [JsVal.truthy, JsVal.isNullish]
  simp [transformLookerField, catchToNull, transformLookerFieldBody, hnn, ho, hk]

/-! ### Claim theorems -/

/-- C1, counterexample: for the wrapper `{value: 0}` the claim's rule list
("else v's `value` field") prescribes `0`, but the cell renderer returns the
placeholder `-`, because `value.rendered || value.value || '-'` tests
truthiness and `0` is falsy. -/
theorem cellRender_presence_counterexample :
    cellRender (JsVal.obj [("value", JsVal.numV 0)]) = JsVal.strV "-"
    ∧ cellRenderSpecLiteral (JsVal.obj [("value", JsVal.numV 0)]) = JsVal.numV 0
    ∧ cellRender (JsVal.obj [("value", JsVal.numV 0)])
        ≠ cellRenderSpecLiteral (JsVal.obj [("value", JsVal.numV 0)]) :=
  ⟨rfl, rfl, fun h => JsVal.noConfusion h⟩

/-- C1 (amended): the cell renderer applies the rules in order — placeholder
for nullish values; for an object containing a `value` key, the `rendered`
field if truthy, else the `value` field if truthy, else the placeholder; any
other object its JSON text; numbers their locale-formatted string; any other
value unchanged. -/
theorem cellRender_policy : ∀ v : JsVal, cellRender v = cellRenderSpecAmended v := by
  intro v
  cases v with
  | obj fs =>
    simp only [cellRender, cellRenderSpecAmended, JsVal.isNullish, JsVal.isObjType,
      JsVal.hasKey, JsVal.getKey, JsVal.getProp?, jsOr, Bool.false_eq_true, if_false,
      if_true]
  | arr xs =>
    simp [cellRender, cellRenderSpecAmended, JsVal.isNullish, JsVal.isObjType,
      JsVal.hasKey, getProp?_arr_value]
  | _ => rfl

/-- C2, counterexample: `transformLookerData` unwraps only one level, so a
wrapper object nested inside a wrapper's `value` field survives
normalization as an object value. -/
theorem transformLookerData_object_survives :
    transformLookerData
        [[("a", JsVal.obj [("value", JsVal.obj [("value", JsVal.numV 5)])])]]
      = [[("a", JsVal.obj [("value", JsVal.numV 5)])]]
    ∧ isPrimitiveOrNull (JsVal.obj [("value", JsVal.numV 5)]) = false :=
  ⟨rfl, rfl⟩

/-- C2 (amended): values of normalized rows are primitives or `null`
provided each input value is itself a primitive/null or a wrapper whose
`value` field is a primitive/null; only one level of unwrapping is
performed. -/
theorem transformLookerData_values_primitive (rows : List JsObj)
    (h : ∀ row ∈ rows, ∀ kv ∈ row,
        isPrimitiveOrNull (Prod.snd kv) = true
        ∨ (isWrapperPat (Prod.snd kv) = true
            ∧ isPrimitiveOrNull ((Prod.snd kv).getKey "value") = true)) :
    ∀ row' ∈ transformLookerData rows, ∀ kv' ∈ row',
      isPrimitiveOrNull (Prod.snd kv') = true := by
  intro row' hrow' kv' hkv'
  obtain ⟨row, hrow, hmap⟩ := List.mem_map.mp hrow'
  have hmem := foldl_objSet_mem (fun kv => catchToNull transformLookerFieldBody kv.2)
    row [] kv' (by rw [← hmap] at hkv'; exact hkv')
  rcases hmem with habs | ⟨p, hp, he⟩
  · simp at habs
  · rw [he]
    rcases h row hrow p hp with hprim | ⟨hw, hv⟩
    · exact transformLookerField_of_primitive p.2 hprim
    · show isPrimitiveOrNull (transformLookerField p.2) = true
      rw [transformLookerField_wrapper p.2 hw]
      exact hv

/-- C2 witness: on a concrete batch of one-level rows the normalized
value of the wrapper field is a primitive. -/
theorem transformLookerData_values_primitive_witness :
    isPrimitiveOrNull (JsVal.strV "x") = true :=
  transformLookerData_values_primitive
    [[("a", JsVal.numV 1), ("b", JsVal.obj [("value", JsVal.strV "x")])]]
    (by decide)
    [("a", JsVal.numV 1), ("b", JsVal.strV "x")]
    (List.Mem.head _)
    ("b", JsVal.strV "x")
    (List.Mem.tail _ (List.Mem.head _))

/-- C3: `transformLookerData` preserves row count and order; on a row with
distinct keys (JavaScript objects) it is the keywise map of the per-field
rule — nullish to `null`, a wrapper to its `value`, anything else
unchanged — and the per-field `catch` turns any failure of an arbitrary
per-field body into `null` for that field only, never disturbing the rest
of the row or the batch. -/
theorem transformLookerData_contract :
    (∀ rows : List JsObj, (transformLookerData rows).length = rows.length
       ∧ ∀ i : Nat, (transformLookerData rows)[i]? = (rows[i]?).map transformLookerRow)
    ∧ (∀ row : JsObj, (row.map Prod.fst).Nodup →
         transformLookerRow row = row.map (fun kv => (kv.1, transformLookerField kv.2)))
    ∧ (∀ v : JsVal,
         (v.isNullish = true → transformLookerField v = JsVal.null)
         ∧ (v.isNullish = false → (v.isObjType && v.hasKey "value") = true →
             transformLookerField v = v.getKey "value")
         ∧ (v.isNullish = false → (v.isObjType && v.hasKey "value") = false →
             transformLookerField v = v))
    ∧ (∀ (body : JsVal → Except Unit JsVal) (row : JsObj), (row.map Prod.fst).Nodup →
         transformLookerRowWith body row
             = row.map (fun kv => (kv.1, catchToNull body kv.2))
         ∧ ∀ (v : JsVal) (e : Unit), body v = Except.error e →
             catchToNull body v = JsVal.null) := by
  refine ⟨?_, ?_, ?_, ?_⟩
  · intro rows
    exact ⟨by simp [transformLookerData], fun i => by
      simp [transformLookerData, List.getElem?_map]⟩
  · intro row hnd
    exact transformLookerRowWith_eq_map transformLookerFieldBody row hnd
  · intro v
    refine ⟨?_, ?_, ?_⟩
    · intro h
      simp [transformLookerField, catchToNull, transformLookerFieldBody, h]
    · intro h1 h2
      rcases Bool.and_eq_true _ _ |>.mp h2 with ⟨ho, hk⟩
      simp [transformLookerField, catchToNull, transformLookerFieldBody, h1, ho, hk]
    · intro h1 h2
      simp [transformLookerField, catchToNull, transformLookerFieldBody, h1, h2]
  · intro body row hnd
    refine ⟨transformLookerRowWith_eq_map body row hnd, ?_⟩
    intro v e he
    simp [catchToNull, he]

/-- C3 witness: a per-field body that always fails degrades the single
field of a concrete row to `null` without aborting the row. -/
theorem transformLookerData_contract_witness :
    transformLookerRowWith (fun _ => Except.error ()) [("a", JsVal.numV 3)]
      = [("a", JsVal.null)] := by
  have h := (transformLookerData_contract.2.2.2 (fun _ => Except.error ())
    [("a", JsVal.numV 3)] (by simp)).1
  simpa [catchToNull] using h

/-- C4: for an object row, when the field identifier is not a direct key
and its dotted segment path is broken (a nullish or non-object intermediate
value, or a missing segment), `getFieldValue` returns the `undefined`
sentinel — which is distinct from `JsVal.null` — and, being a total
function of the embedding, never throws. -/
theorem getFieldValue_missing_path (fs : JsObj) (f : String)
    (h1 : (JsVal.obj fs).hasKey f = false)
    (h2 : pathBroken (jsSplitDot f) (JsVal.obj fs) = true) :
    getFieldValue (JsVal.obj fs) f = JsVal.undefV
    ∧ JsVal.undefV ≠ JsVal.null := by
  refine ⟨?_, fun h => JsVal.noConfusion h⟩
  unfold getFieldValue
  rw [h1]
  simpa using getFieldNested_of_pathBroken (jsSplitDot f) (JsVal.obj fs) h2

/-- C4 witness at a concrete missing path. -/
theorem getFieldValue_missing_path_witness :
    (JsVal.obj [("a", JsVal.numV 1)]).hasKey "b.c" = false
    ∧ pathBroken (jsSplitDot "b.c") (JsVal.obj [("a", JsVal.numV 1)]) = true
    ∧ getFieldValue (JsVal.obj [("a", JsVal.numV 1)]) "b.c" = JsVal.undefV :=
  ⟨rfl, rfl, (getFieldValue_missing_path [("a", JsVal.numV 1)] "b.c" rfl rfl).1⟩

/-- C5: the controller's data update resolves the rows by preferring
`_queryResponse.data` when truthy, else the top-level `data` when truthy,
else the empty array; an empty resolved row set surfaces the
"No data available" condition instead of a table; and any exception in the
`try` body yields the "Failed to process visualization data" condition —
`handleDataUpdate` being a total function, nothing propagates to the
host. -/
theorem handleDataUpdate_contract :
    (∀ qr : JsVal,
       ((optGet (optGet qr "_queryResponse") "data").truthy = true →
          resolveRawData qr = optGet (optGet qr "_queryResponse") "data")
       ∧ ((optGet (optGet qr "_queryResponse") "data").truthy = false →
            (optGet qr "data").truthy = true → resolveRawData qr = optGet qr "data")
       ∧ ((optGet (optGet qr "_queryResponse") "data").truthy = false →
            (optGet qr "data").truthy = false → resolveRawData qr = JsVal.arr []))
    ∧ (∀ (cfg : Option TableFeatureConfig) (qr : JsVal),
         resolveRawData qr = JsVal.arr [] →
           handleDataUpdate cfg qr = UpdateOutcome.noData)
    ∧ (∀ (cfg : Option TableFeatureConfig) (qr : JsVal) (e : Unit),
         handleDataUpdateBody cfg qr = Except.error e →
           handleDataUpdate cfg qr = UpdateOutcome.failed) := by
  refine ⟨?_, ?_, ?_⟩
  · intro qr
    refine ⟨?_, ?_, ?_⟩
    · intro h
      simp [resolveRawData, jsOr, h]
    · intro h1 h2
      simp [resolveRawData, jsOr, h1, h2]
    · intro h1 h2
      simp [resolveRawData, jsOr, h1, h2]
  · intro cfg qr h
    unfold handleDataUpdate handleDataUpdateBody
    rw [h]
    rfl
  · intro cfg qr e h
    unfold handleDataUpdate
    rw [h]

/-- C5 witness: a query response with no data at all resolves to the empty
array and surfaces the no-data condition. -/
theorem handleDataUpdate_contract_witness :
    resolveRawData (JsVal.obj []) = JsVal.arr []
    ∧ handleDataUpdate none (JsVal.obj []) = UpdateOutcome.noData :=
  ⟨rfl, handleDataUpdate_contract.2.1 none (JsVal.obj []) rfl⟩

/-- C6: when the field identifier is a direct key of an object row,
`getFieldValue` returns the stored value unchanged unless it is a wrapper
object, in which case it returns the wrapper's `value` field. -/
theorem getFieldValue_direct (fs : JsObj) (f : String)
    (h : (JsVal.obj fs).hasKey f = true) :
    (isWrapperPat ((JsVal.obj fs).getKey f) = false →
       getFieldValue (JsVal.obj fs) f = (JsVal.obj fs).getKey f)
    ∧ (∀ (ws : JsObj) (v : JsVal), (JsVal.obj fs).getKey f = JsVal.obj ws →
         ws.lookup "value" = some v → getFieldValue (JsVal.obj fs) f = v) := by
  constructor
  · intro hw
    unfold getFieldValue
    simp only [h, if_true]
    simp [unwrapValue, hw]
  · intro ws v he hv
    unfold getFieldValue
    simp only [h, if_true]
    rw [he]
    simp [unwrapValue, isWrapperPat, JsVal.truthy, JsVal.isObjType, JsVal.hasKey,
      JsVal.getKey, JsVal.getProp?, hv]

/-- C6 witness: a directly stored wrapper is unwrapped, a directly stored
primitive is returned unchanged. -/
theorem getFieldValue_direct_witness :
    getFieldValue (JsVal.obj [("a", JsVal.obj [("value", JsVal.numV 7)])]) "a"
      = JsVal.numV 7
    ∧ getFieldValue (JsVal.obj [("b", JsVal.strV "x")]) "b" = JsVal.strV "x" :=
  ⟨(getFieldValue_direct [("a", JsVal.obj [("value", JsVal.numV 7)])] "a" rfl).2
      [("value", JsVal.numV 7)] (JsVal.numV 7) rfl rfl,
   (getFieldValue_direct [("b", JsVal.strV "x")] "b" rfl).1 rfl⟩

/-- C7: `formatFieldLabel` takes the last dot segment, splits it at runs of
underscores/whitespace, title-cases each word and joins with single spaces
(shown against an independently phrased formulation of the same policy),
with the specification's two examples; as a Lean function it is pure and
deterministic. -/
theorem formatFieldLabel_policy :
    (∀ s : String, formatFieldLabel s = formatFieldLabelSpec s)
    ∧ formatFieldLabel "view.total_order_count" = "Total Order Count"
    ∧ formatFieldLabel "Revenue" = "Revenue" := by
  refine ⟨?_, rfl, rfl⟩
  intro s
  unfold formatFieldLabel formatFieldLabelSpec
  rw [charSplit_collapseRuns]

/-- C8: after any adapter step that changes the row-data reference or the
column-set identity, the pagination-reset effect forces the page index to
zero, whatever it was before. -/
theorem pagination_reset (s : TableLogicState) (e : TableEvent)
    (h : (tableStep s e).dataRef ≠ s.dataRef
        ∨ (tableStep s e).columnsRef ≠ s.columnsRef) :
    (tableStep s e).pageIndex = 0 := by
  cases e <;> simp_all [tableStep, applyEvent, paginationResetEffect]

/-- C8 witness: delivering new row data from page 5 lands on page 0. -/
theorem pagination_reset_witness :
    (tableStep ⟨0, [], 0, [], 5, 10⟩ (TableEvent.setData [])).pageIndex = 0 :=
  pagination_reset ⟨0, [], 0, [], 5, 10⟩ (TableEvent.setData []) (Or.inl (by decide))

theorem handleDataUpdate_success_cols (cfg : Option TableFeatureConfig) (qr : JsVal)
    (rows : List JsObj) (cols : List ColumnDef)
    (h : handleDataUpdate cfg qr = UpdateOutcome.success rows cols) :
    ∃ calcs, extractCalcs qr = Except.ok calcs
      ∧ cols = createColumns cfg hardcodedDimensions hardcodedMeasures calcs := by
  unfold handleDataUpdate handleDataUpdateBody at h
  split at h
  · rename_i o heq
    split at heq
    · simp at heq
    · split at heq
      · simp only [Except.ok.injEq] at heq
        rw [← heq] at h
        simp at h
      · split at heq
        · simp at heq
        · rename_i calcs hcalcs
          simp only [Except.ok.injEq] at heq
          rw [← heq] at h
          injection h with h1 h2
          exact ⟨calcs, hcalcs, h2.symm⟩
  · simp at h

/-- C9, counterexample: two query responses with identical data but
different `fieldTableCalculations` produce different column sets, so the
column set does vary with the response's field metadata — the hard-coded
pair does not override the table calculations. -/
theorem handleDataUpdate_columns_vary :
    handleDataUpdate none
        (JsVal.obj [("data", JsVal.arr [JsVal.obj [("k", JsVal.numV 1)]]),
          ("fieldDimensions", JsVal.arr [JsVal.obj [("name", JsVal.strV "real.dim")]])])
      = UpdateOutcome.success [[("k", JsVal.numV 1)]]
          [⟨"executive_summary.dynamic_reporting", "Reporting Date",
              true, false, false, false, false⟩,
           ⟨"executive_summary.total_order_count_dynamic", "Total Order Count",
              true, false, false, false, false⟩]
    ∧ handleDataUpdate none
        (JsVal.obj [("data", JsVal.arr [JsVal.obj [("k", JsVal.numV 1)]]),
          ("fieldDimensions", JsVal.arr [JsVal.obj [("name", JsVal.strV "real.dim")]]),
          ("fieldTableCalculations",
            JsVal.arr [JsVal.obj [("name", JsVal.strV "calc.one")]])])
      = UpdateOutcome.success [[("k", JsVal.numV 1)]]
          [⟨"executive_summary.dynamic_reporting", "Reporting Date",
              true, false, false, false, false⟩,
           ⟨"executive_summary.total_order_count_dynamic", "Total Order Count",
              true, false, false, false, false⟩,
           ⟨"calc.one", "One", true, false, false, false, false⟩]
    ∧ ([⟨"executive_summary.dynamic_reporting", "Reporting Date",
            true, false, false, false, false⟩,
         ⟨"executive_summary.total_order_count_dynamic", "Total Order Count",
            true, false, false, false, false⟩,
         ⟨"calc.one", "One", true, false, false, false, false⟩] : List ColumnDef)
        ≠ [⟨"executive_summary.dynamic_reporting", "Reporting Date",
              true, false, false, false, false⟩,
           ⟨"executive_summary.total_order_count_dynamic", "Total Order Count",
              true, false, false, false, false⟩] :=
  ⟨rfl, rfl, by decide⟩

/-- C9 (amended): the hard-coded dimension/measure pair overrides
`fieldDimensions` and `fieldMeasures` — the outcome of a data update
depends on the query response only through its resolved data and its
`fieldTableCalculations` — and every successful update's column list
starts with the two hard-coded columns ('Reporting Date' and
'Total Order Count'); only the response's table calculations can add
further columns. -/
theorem handleDataUpdate_fields_hardcoded (cfg : Option TableFeatureConfig)
    (qr₁ qr₂ : JsVal)
    (hdata : resolveRawData qr₁ = resolveRawData qr₂)
    (hcalc : qr₁.getKey "fieldTableCalculations" = qr₂.getKey "fieldTableCalculations") :
    handleDataUpdate cfg qr₁ = handleDataUpdate cfg qr₂
    ∧ ∀ (rows : List JsObj) (cols : List ColumnDef),
        handleDataUpdate cfg qr₁ = UpdateOutcome.success rows cols →
        cols.take 2
          = [mkColumn cfg ⟨"executive_summary.dynamic_reporting",
                "Reporting Date", FieldType.dimension⟩,
             mkColumn cfg ⟨"executive_summary.total_order_count_dynamic",
                "Total Order Count", FieldType.measure⟩] := by
  constructor
  · unfold handleDataUpdate handleDataUpdateBody extractCalcs
    rw [hdata, hcalc]
  · intro rows cols h
    obtain ⟨calcs, _, hcols⟩ := handleDataUpdate_success_cols cfg qr₁ rows cols h
    rw [hcols]
    simp [createColumns, mkAllFields, hardcodedDimensions, hardcodedMeasures,
      fieldLabelOf]

/-- C9 witness: on a concrete response carrying one table calculation, the
first two columns of the successful update are the hard-coded pair. -/
theorem handleDataUpdate_fields_hardcoded_witness :
    ([⟨"executive_summary.dynamic_reporting", "Reporting Date",
          true, false, false, false, false⟩,
       ⟨"executive_summary.total_order_count_dynamic", "Total Order Count",
          true, false, false, false, false⟩,
       ⟨"calc.one", "One", true, false, false, false, false⟩] : List ColumnDef).take 2
      = [mkColumn none ⟨"executive_summary.dynamic_reporting",
            "Reporting Date", FieldType.dimension⟩,
         mkColumn none ⟨"executive_summary.total_order_count_dynamic",
            "Total Order Count", FieldType.measure⟩] :=
  (handleDataUpdate_fields_hardcoded none
      (JsVal.obj [("data", JsVal.arr [JsVal.obj [("k", JsVal.numV 1)]]),
        ("fieldTableCalculations",
          JsVal.arr [JsVal.obj [("name", JsVal.strV "calc.one")]])])
      (JsVal.obj [("data", JsVal.arr [JsVal.obj [("k", JsVal.numV 1)]]),
        ("fieldTableCalculations",
          JsVal.arr [JsVal.obj [("name", JsVal.strV "calc.one")]])])
      rfl rfl).2 [[("k", JsVal.numV 1)]]
      [⟨"executive_summary.dynamic_reporting", "Reporting Date",
          true, false, false, false, false⟩,
       ⟨"executive_summary.total_order_count_dynamic", "Total Order Count",
          true, false, false, false, false⟩,
       ⟨"calc.one", "One", true, false, false, false, false⟩] rfl

/-- C10, counterexample: for a wrapper whose `rendered` field is present
but falsy (the empty string), the companion `_rendered` key holds the
wrapper's `value`, not the `rendered` string the claim prescribes. -/
theorem transformQueryRow_rendered_truthiness :
    transformQueryRow
        [("a", JsVal.obj [("value", JsVal.numV 1), ("rendered", JsVal.strV "")])]
      = [("a", JsVal.numV 1), ("a_rendered", JsVal.numV 1)]
    ∧ JsVal.numV 1 ≠ JsVal.strV "" :=
  ⟨rfl, fun h => JsVal.noConfusion h⟩

/-- C10 (amended): on a row with distinct, collision-free keys, the
controller's row transformation emits, for every wrapper-valued field, the
unwrapped value under the original key plus a `<key>_rendered` companion
holding `rendered` if truthy else `value`; other fields pass through, and
the output keys are the input keys plus the companions — unconstrained
by any field set.  There is no per-field catch: the transformation is the
plain entry walk. -/
theorem transformQueryRow_spec (row : JsObj)
    (h1 : (row.map Prod.fst).Nodup)
    (h2 : ∀ k ∈ row.map Prod.fst, ∀ k' ∈ row.map Prod.fst, k ≠ k' ++ "_rendered") :
    transformQueryRow row = row.flatMap queryWrites
    ∧ ∀ kv ∈ row, isWrapperPat kv.2 = true →
        queryWrites kv
          = [(kv.1, kv.2.getKey "value"),
             (kv.1 ++ "_rendered", jsOr (kv.2.getKey "rendered") (kv.2.getKey "value"))] :=
  ⟨transformQueryRow_eq_flatMap row h1 h2,
   fun kv _ hw => by simp [queryWrites, hw]⟩

/-- C10 witness: a concrete row whose wrapper field produces its
companion key, and whose keys are not part of the hard-coded field set. -/
theorem transformQueryRow_spec_witness :
    transformQueryRow [("foo.bar", JsVal.obj [("value", JsVal.numV 2)]),
        ("baz", JsVal.numV 3)]
      = [("foo.bar", JsVal.numV 2), ("foo.bar_rendered", JsVal.numV 2),
         ("baz", JsVal.numV 3)]
    ∧ "foo.bar" ∉ ["executive_summary.dynamic_reporting",
        "executive_summary.total_order_count_dynamic"] := by
  constructor
  · exact ((transformQueryRow_spec
      [("foo.bar", JsVal.obj [("value", JsVal.numV 2)]), ("baz", JsVal.numV 3)]
      (by decide) (by decide)).1).trans rfl
  · decide

end LookerViz
